import Mathlib

/-!
Verification development for the `use-prompt-api` repository.

This file gives a shallow embedding, in Lean, of the library's core logic:
the JSON protocol codec (`parseFunctionCall`, `parseJSONResponse`), the
schema coercer (`zodSchemaToJsonSchema`), argument validation and function
execution (`validateArguments`, `executeFunctionCall`), session disposal
(`SessionManager.destroy`), the structured-output retry loop
(`promptWithStructure`), the basic agent loop (`BasicAgent.run`) and the
planning/reflection super-loop (`AdvancedAgent.executeWithReflection`).

Conventions of the embedding:
* JavaScript values flowing through `JSON.parse` are modelled by the `Json`
  inductive below; JSON numbers are restricted to integers (every concrete
  value exercised by the specification is integral).
* Promises/exceptions are modelled with `Except`/`Option`; a thrown
  exception is an `Except.error` carrying the message string.
* The completion primitive is modelled by canned responses: a total
  function from the index of the prompt call to the model's reply.
* Wall-clock timestamps (`Date.now()`) are omitted from `AgentStep`: no
  verified property mentions them.
* Exact JavaScript-engine error message texts (for example the message of
  the `SyntaxError` thrown by `JSON.parse`) are not reproducible; parse
  errors carry a fixed descriptive string instead, preserving the code's
  control flow exactly.
-/

/-! ### Characters that the repository's regexes mention -/

def lbraceChar : Char := Char.ofNat 123

def rbraceChar : Char := Char.ofNat 125

def lbrackChar : Char := Char.ofNat 91

def rbrackChar : Char := Char.ofNat 93

def btickChar : Char := Char.ofNat 96

/-! ### JSON values (result of `JSON.parse`) -/

inductive Json where
  | null : Json
  | bool (b : Bool) : Json
  | num (n : Int) : Json
  | str (s : String) : Json
  | arr (items : List Json) : Json
  | obj (fields : List (String × Json)) : Json
deriving Repr

/-- JavaScript property lookup on a parsed object: `JSON.parse` keeps the
last of duplicate keys, so lookup prefers the last binding. -/
def lookupLast (k : String) : List (String × Json) → Option Json
  | [] => none
  | (k', v) :: rest =>
    match lookupLast k rest with
    | some r => some r
    | none => if k' = k then some v else none

def Json.getField (j : Json) (k : String) : Option Json :=
  match j with
  | .obj fields => lookupLast k fields
  | _ => none

def Json.asString : Json → Option String
  | .str s => some s
  | _ => none

/-- JavaScript truthiness of a parsed JSON value. -/
def Json.truthy : Json → Bool
  | .null => false
  | .bool b => b
  | .num n => n ≠ 0
  | .str s => s ≠ ""
  | .arr _ => true
  | .obj _ => true

/-! ### A JSON parser modelling `JSON.parse`

Recursive-descent with explicit fuel.  JSON whitespace is space, tab,
newline, carriage return.  Numbers follow the JSON grammar restricted to
integers (optional minus, no superfluous leading zero); a fractional part
or exponent makes the parse fail, which only moves such inputs onto the
same failure path that `JSON.parse` errors take for genuinely malformed
text. -/

def isJsonWs (c : Char) : Bool :=
  c = ' ' ∨ c = '\t' ∨ c = '\n' ∨ c = '\r'

def skipWsChars : List Char → List Char
  | [] => []
  | c :: rest => if isJsonWs c then skipWsChars rest else c :: rest

def isDigitChar (c : Char) : Bool := '0' ≤ c ∧ c ≤ '9'

def digitVal (c : Char) : Nat := c.toNat - '0'.toNat

def takeDigits : List Char → (List Char × List Char)
  | [] => ([], [])
  | c :: rest =>
    if isDigitChar c then
      let (ds, r) := takeDigits rest
      (c :: ds, r)
    else ([], c :: rest)

def digitsToNat (ds : List Char) : Nat :=
  ds.foldl (fun acc c => 10 * acc + digitVal c) 0

/-- Parse a JSON number (integer subset of the grammar). -/
def parseNumber (cs : List Char) : Option (Json × List Char) :=
  let (neg, cs1) :=
    match cs with
    | '-' :: rest => (true, rest)
    | _ => (false, cs)
  match takeDigits cs1 with
  | ([], _) => none
  | (d :: ds, rest) =>
    -- the JSON grammar forbids a leading zero followed by more digits
    if d = '0' ∧ ds ≠ [] then none
    else
      -- a fractional part or exponent is outside the embedded subset
      match rest with
      | c :: _ =>
        if c = '.' ∨ c = 'e' ∨ c = 'E' then none
        else
          let n : Int := Int.ofNat (digitsToNat (d :: ds))
          some (.num (if neg then -n else n), rest)
      | [] =>
        let n : Int := Int.ofNat (digitsToNat (d :: ds))
        some (.num (if neg then -n else n), [])

/-- Parse the body of a JSON string literal (after the opening quote),
handling the single-character escapes.  `\u` escapes are outside the
embedded subset and fail the parse. -/
def parseStringBody (acc : List Char) : List Char → Option (String × List Char)
  | [] => none
  | '\\' :: e :: rest =>
    (match e with
     | '"' => some '"'
     | '\\' => some '\\'
     | '/' => some '/'
     | 'n' => some '\n'
     | 't' => some '\t'
     | 'r' => some '\r'
     | 'b' => some (Char.ofNat 8)
     | 'f' => some (Char.ofNat 12)
     | _ => none).bind
      (fun c => parseStringBody (c :: acc) rest)
  | c :: rest =>
    if c = '"' then some (String.mk acc.reverse, rest)
    else if c = '\\' then none
    else parseStringBody (c :: acc) rest

mutual

def parseValue (fuel : Nat) (cs : List Char) : Option (Json × List Char) :=
  match fuel with
  | 0 => none
  | fuel + 1 =>
    match skipWsChars cs with
    | 'n' :: 'u' :: 'l' :: 'l' :: rest => some (.null, rest)
    | 't' :: 'r' :: 'u' :: 'e' :: rest => some (.bool true, rest)
    | 'f' :: 'a' :: 'l' :: 's' :: 'e' :: rest => some (.bool false, rest)
    | '"' :: rest => (parseStringBody [] rest).map (fun (s, r) => (.str s, r))
    | c :: rest =>
      if c = lbraceChar then parseObjFields fuel rest []
      else if c = lbrackChar then parseArrItems fuel rest []
      else parseNumber (c :: rest)
    | [] => none

def parseObjFields (fuel : Nat) (cs : List Char) (acc : List (String × Json)) :
    Option (Json × List Char) :=
  match fuel with
  | 0 => none
  | fuel + 1 =>
    match skipWsChars cs with
    | [] => none
    | c :: rest =>
      if c = rbraceChar ∧ acc.isEmpty then some (.obj [], rest)
      else
        match skipWsChars (c :: rest) with
        | '"' :: rest1 =>
          match parseStringBody [] rest1 with
          | none => none
          | some (key, rest2) =>
            match skipWsChars rest2 with
            | ':' :: rest3 =>
              match parseValue fuel rest3 with
              | none => none
              | some (v, rest4) =>
                match skipWsChars rest4 with
                | ',' :: rest5 => parseObjFields fuel rest5 (acc ++ [(key, v)])
                | c5 :: rest5 =>
                  if c5 = rbraceChar then some (.obj (acc ++ [(key, v)]), rest5)
                  else none
                | [] => none
            | _ => none
        | _ => none

def parseArrItems (fuel : Nat) (cs : List Char) (acc : List Json) :
    Option (Json × List Char) :=
  match fuel with
  | 0 => none
  | fuel + 1 =>
    match skipWsChars cs with
    | [] => none
    | c :: rest =>
      if c = rbrackChar ∧ acc.isEmpty then some (.arr [], rest)
      else
        match parseValue fuel (c :: rest) with
        | none => none
        | some (v, rest1) =>
          match skipWsChars rest1 with
          | ',' :: rest2 => parseArrItems fuel rest2 (acc ++ [v])
          | c2 :: rest2 =>
            if c2 = rbrackChar then some (.arr (acc ++ [v]), rest2)
            else none
          | [] => none

end

/-- `JSON.parse`: parse one value and insist that only whitespace follows. -/
def jsonParse (s : String) : Option Json :=
  match parseValue (2 * s.data.length + 4) s.data with
  | some (v, rest) => if skipWsChars rest = [] then some v else none
  | none => none

/-! ### Regex embeddings used by the codec

`parseFunctionCall` extracts with `response.match(/\x7b[\s\S]*\x7d/)`:
the match, when it exists, runs from the first opening brace to the last
closing brace of the text (greedy `[\s\S]*`), and exists exactly when some
closing brace follows the first opening brace. -/

def firstIdxOf (c : Char) (cs : List Char) : Option Nat :=
  cs.findIdx? (fun x => x = c)

def lastIdxOf (c : Char) (cs : List Char) : Option Nat :=
  (cs.reverse.findIdx? (fun x => x = c)).map (fun k => cs.length - 1 - k)

def sliceChars (cs : List Char) (i j : Nat) : String :=
  String.mk ((cs.drop i).take (j - i + 1))

/-- The match of `/\x7b[\s\S]*\x7d/` against `s`, if any. -/
def braceMatch (s : String) : Option String :=
  match firstIdxOf lbraceChar s.data, lastIdxOf rbraceChar s.data with
  | some i, some j => if i < j then some (sliceChars s.data i j) else none
  | _, _ => none

/-- The match of `/(\x7b[\s\S]*\x7d|\[[\s\S]*\])/` against `s`, if any:
leftmost match wins, and at equal start the object alternative is tried
first (the two alternatives can never start at the same index). -/
def jsonSpanMatch (s : String) : Option String :=
  let objSpan : Option (Nat × Nat) :=
    match firstIdxOf lbraceChar s.data, lastIdxOf rbraceChar s.data with
    | some i, some j => if i < j then some (i, j) else none
    | _, _ => none
  let arrSpan : Option (Nat × Nat) :=
    match firstIdxOf lbrackChar s.data, lastIdxOf rbrackChar s.data with
    | some i, some j => if i < j then some (i, j) else none
    | _, _ => none
  match objSpan, arrSpan with
  | some (i, j), some (k, l) =>
    if i ≤ k then some (sliceChars s.data i j) else some (sliceChars s.data k l)
  | some (i, j), none => some (sliceChars s.data i j)
  | none, some (k, l) => some (sliceChars s.data k l)
  | none, none => none

/-! ### Protocol codec: `parseFunctionCall` (function-prompt-builder.ts) -/

inductive ParsedResponse where
  | functionCall (fc : Json) (reasoning : Option Json) : ParsedResponse
  | regularResponse (text : String) : ParsedResponse
deriving Repr

/-- Shallow embedding of `parseFunctionCall(response)`.  The TS function
wraps everything in `try`: regex miss, `JSON.parse` failure, and a missing
or falsy `functionCall` property all resolve to
`\x7b regularResponse: response \x7d`; a truthy `functionCall` property is
returned as-is together with the optional `reasoning` property. -/
def parseFunctionCall (response : String) : ParsedResponse :=
  match braceMatch response with
  | none => .regularResponse response
  | some candidate =>
    match jsonParse candidate with
    | none => .regularResponse response
    | some parsed =>
      match parsed.getField "functionCall" with
      | some fc =>
        if fc.truthy then .functionCall fc (parsed.getField "reasoning")
        else .regularResponse response
      | none => .regularResponse response

/-! ### Markdown-fence stripping and JSON extraction (structured-prompt.ts) -/

/-- JavaScript `\s` restricted to its ASCII members (space, tab, and the
line/page control characters); the Unicode space characters that `\s` also
matches do not occur in any verified input. -/
def isRegexWs (c : Char) : Bool :=
  c = ' ' ∨ c = '\t' ∨ c = '\n' ∨ c = '\r' ∨ c = Char.ofNat 11 ∨ c = Char.ofNat 12

/-- `String.prototype.trim()` on the same ASCII whitespace subset. -/
def jsTrim (s : String) : String :=
  String.mk (((s.data.dropWhile isRegexWs).reverse.dropWhile isRegexWs).reverse)

def lowerEq (c target : Char) : Bool := c.toLower = target

/-- `cleaned.replace(/^```json?\s*/i, '')`: strip a leading fence spelled
with three backticks, the letters `jso`, an optional `n` (the regex
quantifier binds only to the final letter), then whitespace. -/
def stripLeadingFence (cs : List Char) : List Char :=
  match cs with
  | c1 :: c2 :: c3 :: c4 :: c5 :: c6 :: rest =>
    if c1 = btickChar ∧ c2 = btickChar ∧ c3 = btickChar ∧
        lowerEq c4 'j' ∧ lowerEq c5 's' ∧ lowerEq c6 'o' then
      let rest2 :=
        match rest with
        | c7 :: rest' => if lowerEq c7 'n' then rest' else rest
        | [] => []
      rest2.dropWhile isRegexWs
    else cs
  | _ => cs

/-- `cleaned.replace(/```\s*$/, '')`: remove a final run of three
backticks followed only by whitespace, when present. -/
def stripTrailingFence (cs : List Char) : List Char :=
  match cs.reverse.dropWhile isRegexWs with
  | b1 :: b2 :: b3 :: rest =>
    if b1 = btickChar ∧ b2 = btickChar ∧ b3 = btickChar then rest.reverse
    else cs
  | _ => cs

def strTake (n : Nat) (s : String) : String := String.mk (s.data.take n)

/-- Shallow embedding of `parseJSONResponse(response)`: trim, strip the
markdown fences, extract the first object-or-array span, `JSON.parse` it;
a parse failure throws a `StructuredOutputError` whose message embeds (a
prefix of) the cleaned text. -/
def parseJSONResponse (response : String) : Except String Json :=
  let cleaned0 := jsTrim response
  let cleaned1 :=
    String.mk (stripTrailingFence (stripLeadingFence cleaned0.data))
  let cleaned :=
    match jsonSpanMatch cleaned1 with
    | some m => m
    | none => cleaned1
  match jsonParse cleaned with
  | some v => .ok v
  | none =>
    .error ("Failed to parse JSON response. Response: " ++ strTake 200 cleaned)

/-! ### Schema coercer (schema-generator.ts)

The Zod schemas the generator inspects (via `_def.typeName`) are embedded
as an inductive; `z.union` requires at least one alternative, which the
`zunion` constructor records structurally.  Zod types outside the
generator's `switch` fall to its default branch and are not needed by any
claim, so they are not part of the embedding. -/

inductive ZodType where
  | zstring : ZodType
  | znumber : ZodType
  | zboolean : ZodType
  | zarray (item : ZodType) : ZodType
  | zobject (shape : List (String × ZodType)) : ZodType
  | zenum (values : List String) : ZodType
  | zoptional (inner : ZodType) : ZodType
  | znullable (inner : ZodType) : ZodType
  | zunion (first : ZodType) (rest : List ZodType) : ZodType

/-- The `typeName !== 'ZodOptional'` test used when the object case builds
its `required` list. -/
def ZodType.isZodOptional : ZodType → Bool
  | .zoptional _ => true
  | _ => false

/-- The wire description `SchemaDefinition` (library.types.ts): a record
with a `type` tag and optional `properties` / `required` / `items` /
`enum` members.  Being recursive it is an inductive with one constructor
and projection functions. -/
inductive SchemaDefinition where
  | mk (type : String)
      (properties : Option (List (String × SchemaDefinition)))
      (required : Option (List String))
      (items : Option SchemaDefinition)
      (enumVals : Option (List String)) : SchemaDefinition

def SchemaDefinition.type : SchemaDefinition → String
  | .mk t _ _ _ _ => t

def SchemaDefinition.properties :
    SchemaDefinition → Option (List (String × SchemaDefinition))
  | .mk _ p _ _ _ => p

def SchemaDefinition.required : SchemaDefinition → Option (List String)
  | .mk _ _ r _ _ => r

def SchemaDefinition.items : SchemaDefinition → Option SchemaDefinition
  | .mk _ _ _ i _ => i

def SchemaDefinition.enumVals : SchemaDefinition → Option (List String)
  | .mk _ _ _ _ e => e

mutual

/-- Shallow embedding of `zodSchemaToJsonSchema` (= `generateSchema` up to
the trivial wrapper). -/
def zodSchemaToJsonSchema : ZodType → SchemaDefinition
  | .zstring => .mk "string" none none none none
  | .znumber => .mk "number" none none none none
  | .zboolean => .mk "boolean" none none none none
  | .zarray item => .mk "array" none none (some (zodSchemaToJsonSchema item)) none
  | .zobject shape =>
    let required :=
      (shape.filter (fun p => !p.2.isZodOptional)).map Prod.fst
    .mk "object" (some (zodShapeToProperties shape))
      (if required.isEmpty then none else some required) none none
  | .zenum values => .mk "string" none none none (some values)
  | .zoptional inner => zodSchemaToJsonSchema inner
  | .znullable inner => zodSchemaToJsonSchema inner
  | .zunion first _rest => zodSchemaToJsonSchema first

/-- The object case's pass over `Object.entries(shape)`, building the
`properties` record in key order. -/
def zodShapeToProperties :
    List (String × ZodType) → List (String × SchemaDefinition)
  | [] => []
  | (k, v) :: rest => (k, zodSchemaToJsonSchema v) :: zodShapeToProperties rest

end

/-! ### Function execution (function-executor.ts, function-registry.ts) -/

/-- The `FunctionParameter` schema of library.types.ts, restricted to the
members `validateArguments` reads: the `type` tag, the `properties` record
(only its keys are consulted) and the `required` list. -/
inductive FunctionParameter where
  | mk (type : String)
      (properties : Option (List (String × FunctionParameter)))
      (required : Option (List String)) : FunctionParameter

def FunctionParameter.type : FunctionParameter → String
  | .mk t _ _ => t

def FunctionParameter.properties :
    FunctionParameter → Option (List (String × FunctionParameter))
  | .mk _ p _ => p

def FunctionParameter.required : FunctionParameter → Option (List String)
  | .mk _ _ r => r

/-- A registered function: name, description, parameter schema, handler.
The handler either returns a value or throws (`Except.error message`). -/
structure FunctionDefinition where
  name : String
  description : String
  parameters : FunctionParameter
  handler : List (String × Json) → Except String Json

structure ToolResult where
  success : Bool
  result : Option Json
  error : Option String
deriving Repr

/-- `FunctionCall` as consumed by `executeFunctionCall`. -/
structure FunctionCallV where
  name : String
  arguments : List (String × Json)

/-- Registry lookup.  `FunctionRegistry` is a `Map` keyed by name where
re-registration overwrites, so the latest definition with the name wins. -/
def registryGet (registry : List FunctionDefinition) (name : String) :
    Option FunctionDefinition :=
  registry.reverse.find? (fun d => d.name = name)

def argKeys (args : List (String × Json)) : List String := args.map Prod.fst

/-- The property names of `Object.prototype`.  The JavaScript `in`
operator traverses the prototype chain, and an argument object produced
by `JSON.parse` inherits from `Object.prototype`, so these names are
found by `field in args` even when the arguments omit them. -/
def objectPrototypeKeys : List String :=
  ["constructor", "hasOwnProperty", "isPrototypeOf", "propertyIsEnumerable",
    "toLocaleString", "toString", "valueOf", "__proto__",
    "__defineGetter__", "__defineSetter__", "__lookupGetter__",
    "__lookupSetter__"]

/-- JavaScript `field in args` for a plain argument object: own keys plus
the properties inherited from `Object.prototype`. -/
def jsIn (field : String) (args : List (String × Json)) : Bool :=
  (argKeys args).contains field || objectPrototypeKeys.contains field

/-- Shallow embedding of `validateArguments(args, parameters)`.  The
required-field check uses the JavaScript `in` operator (`field in args`),
modelled by `jsIn`.  The pass over `Object.keys(args)` that warns about
undeclared parameters only logs (`console.warn`) and never produces an
error, so it contributes nothing to the returned value. -/
def validateArguments (args : List (String × Json))
    (parameters : FunctionParameter) : Option String :=
  if parameters.type ≠ "object" then some "Parameters must be an object"
  else
    match parameters.properties with
    | none => none
    | some _props =>
      let required := parameters.required.getD []
      match required.find? (fun f => !jsIn f args) with
      | some f => some ("Missing required parameter: " ++ f)
      | none => none

/-- Shallow embedding of `executeFunctionCall(call, registry)`.  The
second component records whether the handler was invoked (the effect the
source performs at `definition.handler(args)`). -/
def executeFunctionCall (call : FunctionCallV)
    (registry : List FunctionDefinition) : ToolResult × Bool :=
  match registryGet registry call.name with
  | none =>
    (⟨false, none,
      some ("Function \"" ++ call.name ++ "\" not found in registry")⟩, false)
  | some definition =>
    match validateArguments call.arguments definition.parameters with
    | some validationError => (⟨false, none, some validationError⟩, false)
    | none =>
      match definition.handler call.arguments with
      | .ok r => (⟨true, some r, none⟩, true)
      | .error e => (⟨false, none, some e⟩, true)

/-! ### Session manager disposal (session-manager.ts) -/

/-- The fields of `SessionManager` that `destroy()` reads or writes, plus
the fields it leaves untouched.  `session` holds the underlying
`LanguageModel` handle when active. -/
structure SessionManagerState where
  session : Option Unit
  quotaTracker : Option Unit
  sessionId : String
  enablePersistence : Bool
deriving Repr, DecidableEq

/-- Shallow embedding of `SessionManager.destroy()`: when a session is
active it is destroyed and both the session and quota-tracker references
are cleared; otherwise the call does nothing. -/
def SessionManager.destroy (st : SessionManagerState) : SessionManagerState :=
  match st.session with
  | some _ => { st with session := none, quotaTracker := none }
  | none => st

/-! ### Structured output controller (structured-prompt.ts)

The completion primitive behind `session.prompt` is modelled by a canned
session: a total function giving the model's reply to the n-th prompt
call, a cursor, and a transcript of the prompts that were sent. -/

structure CannedSession where
  responses : Nat → String
  idx : Nat
  sent : List String

/-- One `await session.prompt(p)` against the canned model. -/
def CannedSession.promptCall (s : CannedSession) (p : String) :
    String × CannedSession :=
  (s.responses s.idx,
    { responses := s.responses, idx := s.idx + 1, sent := s.sent ++ [p] })

/-- The `StructuredOutputError` thrown on exhaustion: its message and the
`lastError` it carries (the `cause`). -/
structure StructuredOutputError where
  message : String
  cause : Option String
deriving Repr, DecidableEq

def exhaustedMessage (maxRetries : Nat) : String :=
  "Failed to get valid structured output after " ++ toString maxRetries ++
    " attempts"

def errorFeedbackPrompt (message : String) : String :=
  "The previous response was invalid. Error: " ++ message ++
    ". Please try again with valid JSON."

/-- One attempt's parse-then-validate step: `parseJSONResponse` followed,
for a Zod schema, by `zodSchema.parse`; a plain `SchemaDefinition` schema
performs no validation, which instantiates `validate` with `Except.ok`. -/
def attemptOnce (validate : Json → Except String Json) (response : String) :
    Except String Json :=
  match parseJSONResponse response with
  | .error e => .error e
  | .ok j => validate j

structure SPOutcome where
  result : Except StructuredOutputError Json
  attempts : Nat
  session : CannedSession

/-- The `for (let attempt = 0; attempt < maxRetries; attempt++)` loop of
`promptWithStructure`, indexed by the number of attempts remaining.  Each
attempt sends `fullPrompt`; a failed attempt that is not the last
(`attempt < maxRetries - 1`) additionally sends the error-feedback prompt,
whose reply is discarded.  Exhaustion throws `StructuredOutputError`
carrying the last error. -/
def promptWithStructureGo (validate : Json → Except String Json)
    (fullPrompt : String) (maxRetries : Nat) :
    Nat → CannedSession → Option String → Nat → SPOutcome
  | 0, s, lastError, attempts =>
    ⟨.error ⟨exhaustedMessage maxRetries, lastError⟩, attempts, s⟩
  | remaining + 1, s, _lastError, attempts =>
    let (response, s1) := s.promptCall fullPrompt
    match attemptOnce validate response with
    | .ok v => ⟨.ok v, attempts + 1, s1⟩
    | .error e =>
      -- `attempt < maxRetries - 1` holds exactly when `remaining ≠ 0`
      let s2 :=
        if remaining = 0 then s1 else (s1.promptCall (errorFeedbackPrompt e)).2
      promptWithStructureGo validate fullPrompt maxRetries remaining s2 (some e)
        (attempts + 1)

/-- Shallow embedding of `promptWithStructure(session, prompt, options)`.
The schema-annotated `fullPrompt` is built before the loop from the schema
instructions and the user prompt; its text is taken as a parameter. -/
def promptWithStructure (validate : Json → Except String Json)
    (fullPrompt : String) (maxRetries : Nat) (s : CannedSession) : SPOutcome :=
  promptWithStructureGo validate fullPrompt maxRetries maxRetries s none 0

/-! ### Agent data model (library.types.ts) -/

inductive TaskStatus where
  | idle : TaskStatus
  | running : TaskStatus
  | completed : TaskStatus
  | failed : TaskStatus
  | stopped : TaskStatus
deriving Repr, DecidableEq

/-- An `AgentStep`.  `action` keeps the raw `functionCall` envelope value
the codec produced.  The `timestamp` field is omitted (wall clock), and a
non-string `reasoning` value is modelled as an absent thought. -/
structure AgentStep where
  iteration : Nat
  thought : Option String
  action : Option Json
  observation : Option ToolResult
deriving Repr

structure AgentResult where
  status : TaskStatus
  steps : List AgentStep
  finalAnswer : Option String
  error : Option String
  iterations : Nat
deriving Repr

/-- The configuration surface `BasicAgent.run` consults.  `systemPrompt`
only shapes prompt text and `onStep` is a pure side-effecting observer;
neither influences any verified value. -/
structure AgentConfig where
  maxIterations : Nat
  functions : List FunctionDefinition
  stopCondition : Option (List AgentStep → Bool)

/-- The run's environment: whether session creation throws, the canned
model reply (or prompting error) for each loop iteration, and the
cooperative cancellation signal.  `stopSignal = some k` means the external
`stop()` call has set `shouldStop` by the time `k` iterations have
completed (the flag can only be observed at iteration boundaries). -/
structure RunEnv where
  createError : Option String
  prompts : Nat → Except String String
  stopSignal : Option Nat

def cancelledAt (sig : Option Nat) (done : Nat) : Bool :=
  match sig with
  | none => false
  | some k => decide (k ≤ done)

/-! ### The default completion heuristic (BasicAgent.isTaskComplete) -/

def startsWithChars : List Char → List Char → Bool
  | [], _ => true
  | _ :: _, [] => false
  | n :: ns, h :: hs => n = h && startsWithChars ns hs

def containsChars (needle : List Char) : List Char → Bool
  | [] => needle.isEmpty
  | h :: hs => startsWithChars needle (h :: hs) || containsChars needle hs

def completionIndicators : List String :=
  ["task is complete", "task complete", "finished", "done", "completed",
    "final answer"]

/-- Shallow embedding of `isTaskComplete(response)`: case-insensitive
substring search for any completion indicator. -/
def isTaskComplete (response : String) : Bool :=
  let lowered := response.data.map Char.toLower
  completionIndicators.any (fun ind => containsChars ind.data lowered)

/-! ### Result formatting fed back into the conversation -/

def escapeJsonChars : List Char → List Char
  | [] => []
  | c :: rest =>
    if c = '"' ∨ c = '\\' then '\\' :: c :: escapeJsonChars rest
    else c :: escapeJsonChars rest

mutual

/-- `JSON.stringify` on the embedded values; the `(null, 2)` indentation
of the source is elided since the produced text only feeds prompt strings
that canned responses never inspect. -/
def stringifyJson : Json → String
  | .null => "null"
  | .bool true => "true"
  | .bool false => "false"
  | .num n => toString n
  | .str s => "\"" ++ String.mk (escapeJsonChars s.data) ++ "\""
  | .arr items => "[" ++ stringifyJsonList items ++ "]"
  | .obj fields =>
    String.mk [lbraceChar] ++ stringifyJsonFields fields ++ String.mk [rbraceChar]

def stringifyJsonList : List Json → String
  | [] => ""
  | [j] => stringifyJson j
  | j :: rest => stringifyJson j ++ "," ++ stringifyJsonList rest

def stringifyJsonFields : List (String × Json) → String
  | [] => ""
  | [(k, v)] => "\"" ++ k ++ "\":" ++ stringifyJson v
  | (k, v) :: rest =>
    "\"" ++ k ++ "\":" ++ stringifyJson v ++ "," ++ stringifyJsonFields rest

end

/-- `result.result || result.error` followed by
`formatFunctionResult(name, payload, success)`. -/
def formatFunctionResultText (name : String) (res : ToolResult) : String :=
  let payload : String :=
    match res.result with
    | some r => if r.truthy then stringifyJson r else
        (match res.error with
         | some e => e
         | none => "undefined")
    | none =>
      match res.error with
      | some e => e
      | none => "undefined"
  if res.success then
    "Function \"" ++ name ++ "\" executed successfully. Result: " ++ payload
  else
    "Function \"" ++ name ++ "\" failed with error: " ++ payload

/-- The `FunctionCall` record `BasicAgent` hands to `executeFunctionCall`
after destructuring the raw envelope value: a non-string `name` behaves as
a registry miss and a non-object `arguments` as an empty argument bag. -/
def jsonToFunctionCall (fc : Json) : FunctionCallV :=
  { name := ((fc.getField "name").bind Json.asString).getD "",
    arguments :=
      match fc.getField "arguments" with
      | some (.obj fields) => fields
      | _ => [] }

/-! ### BasicAgent.run (basic-agent.ts, quoted in IMPLEMENTATION_SUMMARY.md) -/

/-- The outcome of a run together with the flag telling whether the run
returned through the in-loop stop-condition branch (the early
`status = completed` return). -/
structure RunOutcome where
  result : AgentResult
  earlyExit : Bool
deriving Repr

def continueTaskPrompt : String := "Continue with the task."

def afterFunctionPrompt (formatted : String) : String :=
  formatted ++
    "\n\nContinue with the task. If the task is complete, respond with " ++
    "your final answer without calling any functions."

/-- The finalization after the `while` loop exits: status `stopped` when
the cancellation flag is set, else `completed`; `finalAnswer` defaults to
the last step's `thought`. -/
def loopExit (sig : Option Nat) (iteration : Nat) (steps : List AgentStep) :
    RunOutcome :=
  ⟨⟨if cancelledAt sig iteration then .stopped else .completed, steps,
    (steps.getLast?).bind (fun st => st.thought), none, iteration⟩, false⟩

/-- The `while (iteration < maxIterations && !shouldStop)` loop of
`BasicAgent.run`.  `iteration` counts completed iterations, and
`remaining` keeps the invariant `iteration + remaining = maxIterations`,
so the source's `iteration < maxIterations` test is `remaining ≠ 0`.  The
n-th iteration's `session.prompt` reply is `env.prompts n` (one prompt
call per iteration).  A prompting error propagates to the surrounding
`catch`, which returns status `failed` with `iterations = steps.length`
and no `finalAnswer`. -/
def runLoop (cfg : AgentConfig) (env : RunEnv) :
    Nat → Nat → List AgentStep → String → RunOutcome
  | 0, iteration, steps, _currentPrompt => loopExit env.stopSignal iteration steps
  | remaining + 1, iteration, steps, _currentPrompt =>
    if cancelledAt env.stopSignal iteration then
      loopExit env.stopSignal iteration steps
    else
      match env.prompts iteration with
      | .error e =>
        ⟨⟨.failed, steps, none, some e, steps.length⟩, false⟩
      | .ok response =>
        match parseFunctionCall response with
        | .functionCall fcRaw reasoning =>
          let call := jsonToFunctionCall fcRaw
          let (res, _invoked) := executeFunctionCall call cfg.functions
          let step : AgentStep :=
            ⟨iteration + 1, reasoning.bind Json.asString, some fcRaw, some res⟩
          let nextPrompt :=
            afterFunctionPrompt (formatFunctionResultText call.name res)
          runLoop cfg env remaining (iteration + 1) (steps ++ [step]) nextPrompt
        | .regularResponse text =>
          let step : AgentStep := ⟨iteration + 1, some text, none, none⟩
          let stopHit : Bool :=
            match cfg.stopCondition with
            | some cond => cond steps
            | none => isTaskComplete text
          if stopHit then
            ⟨⟨.completed, steps ++ [step], some text, none, iteration + 1⟩, true⟩
          else
            runLoop cfg env remaining (iteration + 1) (steps ++ [step])
              continueTaskPrompt

/-- Shallow embedding of `BasicAgent.run(task)`.  A session-creation
failure lands in the `catch` with no steps recorded. -/
def runAgent (cfg : AgentConfig) (env : RunEnv) (task : String) : RunOutcome :=
  match env.createError with
  | some e => ⟨⟨.failed, [], none, some e, 0⟩, false⟩
  | none => runLoop cfg env cfg.maxIterations 0 [] task

/-! ### AdvancedAgent: reflection super-loop (advanced-agent.ts, quoted in
agent-utils listing) -/

/-- The mutable fields of the agent object the reflection loop reads:
whether `this.session` is non-null, the step history, the status, the
cancellation flag and `this.reflectionCount`. -/
structure AgentState where
  hasSession : Bool
  steps : List AgentStep
  status : TaskStatus
  shouldStop : Bool
  reflectionCount : Nat
deriving Repr

structure AdvancedAgentConfig where
  base : AgentConfig
  maxReflections : Option Nat

/-- `this.config.maxReflections || 2`: JavaScript `||` also replaces an
explicit `0` by the default `2`. -/
def maxReflectionsOf (configured : Option Nat) : Nat :=
  match configured with
  | some m => if m = 0 then 2 else m
  | none => 2

/-- `BasicAgent.run` as a state transformer on the agent object: it
resets and rebuilds `steps`/`status`, creates its own session, and its
`finally` block always destroys that session and nulls `this.session`.
After the run the cancellation flag is set exactly when the signal was
observed during it; a signal arriving later belongs to a later run's
environment. -/
def runStateful (cfg : AgentConfig) (env : RunEnv) (task : String)
    (st : AgentState) : RunOutcome × AgentState :=
  let o := runAgent cfg env task
  (o,
    { hasSession := false, steps := o.result.steps, status := o.result.status,
      shouldStop :=
        match env.stopSignal with
        | none => false
        | some k => decide (k ≤ o.result.iterations),
      reflectionCount := st.reflectionCount })

/-- Shallow embedding of `AdvancedAgent.reflect()`: without an active
session, or with an empty step history, it returns early WITHOUT
incrementing `reflectionCount`; otherwise it prompts the session (the
canned reply is `reflText`) and increments the counter. -/
def reflectStep (reflText : String) (st : AgentState) : String × AgentState :=
  if st.hasSession = false ∨ st.steps.isEmpty then
    ("No steps to reflect on", st)
  else
    (reflText, { st with reflectionCount := st.reflectionCount + 1 })

def continuationPromptOf (reflection task : String) : String :=
  "Previous attempt was not fully successful. \n\nReflection:\n" ++ reflection ++
    "\n\nPlease continue with the task: \"" ++ task ++ "\""

/-- The `while (result.status !== 'completed' && this.reflectionCount <
maxReflections && !this.shouldStop)` loop of `executeWithReflection`,
bounded by explicit fuel: `none` means the loop was still running when the
fuel ran out.  `envs k` is the environment of the k-th inner run and
`reflTexts k` the model's reply to the k-th reflection prompt. -/
def executeWithReflectionGo (cfg : AgentConfig) (envs : Nat → RunEnv)
    (reflTexts : Nat → String) (task : String) (maxReflections : Nat) :
    Nat → Nat → AgentState → AgentResult → Option (AgentResult × AgentState)
  | _k, 0, _st, _result => none
  | k, fuel + 1, st, result =>
    if result.status ≠ TaskStatus.completed ∧
        st.reflectionCount < maxReflections ∧ st.shouldStop = false then
      let (reflection, st1) := reflectStep (reflTexts k) st
      let (o, st2) :=
        runStateful cfg (envs k) (continuationPromptOf reflection task) st1
      executeWithReflectionGo cfg envs reflTexts task maxReflections (k + 1)
        fuel st2 o.result
    else some (result, st)

/-- Shallow embedding of `AdvancedAgent.executeWithReflection(task)`: one
initial `this.run(task)` (environment `envs 0`), then the reflection
loop; round `k ≥ 1` re-runs with environment `envs k`. -/
def executeWithReflection (cfg : AdvancedAgentConfig) (envs : Nat → RunEnv)
    (reflTexts : Nat → String) (task : String) (fuel : Nat)
    (st0 : AgentState) : Option (AgentResult × AgentState) :=
  let maxReflections := maxReflectionsOf cfg.maxReflections
  let (o, st1) := runStateful cfg.base (envs 0) task st0
  executeWithReflectionGo cfg.base (fun n => envs (n + 1)) reflTexts task
    maxReflections 0 fuel st1 o.result
/-! ## Claims -/

/-- C9: Disposal is idempotent: for every session manager state, calling
`destroy` twice has the same observable effect on the manager's state as
calling it once, and the second call raises no error (it is a total
function on states). -/
theorem destroy_idempotent (st : SessionManagerState) :
    SessionManager.destroy (SessionManager.destroy st) = SessionManager.destroy st := by
  cases st with
  | mk session quota sid pers => cases session <;> rfl

/-- Helper: the object case's properties pass is a `map`. -/
theorem zodShapeToProperties_eq_map (shape : List (String × ZodType)) :
    zodShapeToProperties shape =
      shape.map (fun p => (p.1, zodSchemaToJsonSchema p.2)) := by
  induction shape with
  | nil => rfl
  | cons hd tl ih => cases hd; simp [zodShapeToProperties, ih]

/-- C8: the schema coercer maps every union to the wire description of its
first alternative, maps every optional or nullable wrapper to the wire
description of its inner schema, and on objects carries optionality only
in the `required` list: a key is required exactly when its schema is not
an optional wrapper. -/
theorem zod_wire_schema_shape :
    (∀ (first : ZodType) (rest : List ZodType),
        zodSchemaToJsonSchema (.zunion first rest) = zodSchemaToJsonSchema first) ∧
    (∀ inner : ZodType,
        zodSchemaToJsonSchema (.zoptional inner) = zodSchemaToJsonSchema inner) ∧
    (∀ inner : ZodType,
        zodSchemaToJsonSchema (.znullable inner) = zodSchemaToJsonSchema inner) ∧
    (∀ shape : List (String × ZodType),
        (zodSchemaToJsonSchema (.zobject shape)).properties =
          some (shape.map (fun p => (p.1, zodSchemaToJsonSchema p.2)))) ∧
    (∀ shape : List (String × ZodType),
        ((zodSchemaToJsonSchema (.zobject shape)).required).getD [] =
          (shape.filter (fun p => !p.2.isZodOptional)).map Prod.fst) := by
  refine ⟨fun first rest => rfl, fun inner => rfl, fun inner => rfl, ?_, ?_⟩
  · intro shape
    simp [zodSchemaToJsonSchema, SchemaDefinition.properties,
      zodShapeToProperties_eq_map]
  · intro shape
    by_cases hreq :
        ((shape.filter (fun p => !p.2.isZodOptional)).map Prod.fst).isEmpty
    · simp [zodSchemaToJsonSchema, SchemaDefinition.required, hreq,
        List.isEmpty_iff.mp hreq]
    · simp [zodSchemaToJsonSchema, SchemaDefinition.required, hreq]

def fcEnvelope : String :=
  "\x7b\"functionCall\":\x7b\"name\":\"f\",\"arguments\":\x7b\"a\":1\x7d\x7d\x7d"

/-- C5: `parseFunctionCall` applied to the exact function-call envelope
text yields a functionCall whose `name` is `"f"` and whose `arguments`
are the object `\x7b a: 1 \x7d`; and every input in which the extraction
regex finds no JSON object comes back as `regularResponse` equal to the
original text. -/
theorem parseFunctionCall_roundtrip :
    (∀ s : String, braceMatch s = none →
        parseFunctionCall s = .regularResponse s) ∧
    ∃ fc : Json, parseFunctionCall fcEnvelope = .functionCall fc none ∧
      fc.getField "name" = some (.str "f") ∧
      fc.getField "arguments" = some (.obj [("a", Json.num 1)]) := by
  constructor
  · intro s hs
    unfold parseFunctionCall
    rw [hs]
  · exact ⟨.obj [("name", .str "f"), ("arguments", .obj [("a", .num 1)])],
      rfl, rfl, rfl⟩

/-- C5 witness: the universally quantified part applied at the concrete
input `"plain text"`. -/
theorem parseFunctionCall_roundtrip_witness :
    braceMatch "plain text" = none ∧
    parseFunctionCall "plain text" = .regularResponse "plain text" :=
  ⟨rfl, parseFunctionCall_roundtrip.1 "plain text" rfl⟩

/-- C6: `parseFunctionCall` is total: every input is classified either as
a function call or as `regularResponse` equal to the full original text,
and on extraction failure, `JSON.parse` failure, or a parsed object with
no `functionCall` field, the classification is `regularResponse`. -/
theorem parseFunctionCall_total (s : String) :
    ((∃ fc r, parseFunctionCall s = .functionCall fc r) ∨
      parseFunctionCall s = .regularResponse s) ∧
    (braceMatch s = none → parseFunctionCall s = .regularResponse s) ∧
    (∀ c, braceMatch s = some c → jsonParse c = none →
      parseFunctionCall s = .regularResponse s) ∧
    (∀ c j, braceMatch s = some c → jsonParse c = some j →
      j.getField "functionCall" = none →
      parseFunctionCall s = .regularResponse s) := by
  refine ⟨?_, ?_, ?_, ?_⟩
  · cases hb : braceMatch s with
    | none => exact Or.inr (by simp [parseFunctionCall, hb])
    | some c =>
      cases hp : jsonParse c with
      | none => exact Or.inr (by simp [parseFunctionCall, hb, hp])
      | some j =>
        cases hf : j.getField "functionCall" with
        | none => exact Or.inr (by simp [parseFunctionCall, hb, hp, hf])
        | some fc =>
          by_cases ht : fc.truthy
          · exact Or.inl ⟨fc, j.getField "reasoning",
              by simp [parseFunctionCall, hb, hp, hf, ht]⟩
          · exact Or.inr (by simp [parseFunctionCall, hb, hp, hf, ht])
  · intro hb; simp [parseFunctionCall, hb]
  · intro c hb hp; simp [parseFunctionCall, hb, hp]
  · intro c j hb hp hf; simp [parseFunctionCall, hb, hp, hf]

/-- C6 witness: the parse-failure clause applied at the concrete input
`"\x7b oops\x7d"`, whose extracted span is not valid JSON. -/
theorem parseFunctionCall_total_witness :
    braceMatch "\x7b oops\x7d" = some "\x7b oops\x7d" ∧
    jsonParse "\x7b oops\x7d" = none ∧
    parseFunctionCall "\x7b oops\x7d" = .regularResponse "\x7b oops\x7d" :=
  ⟨rfl, rfl, (parseFunctionCall_total "\x7b oops\x7d").2.2.1 "\x7b oops\x7d" rfl rfl⟩


def c7ProtoDef : FunctionDefinition :=
  ⟨"h", "demo",
    .mk "object" (some [("toString", .mk "string" none none)]) (some ["toString"]),
    fun _ => .ok (.str "invoked")⟩

/-- C7 counterexample: the required-field check uses the JavaScript `in`
operator, which traverses the prototype chain.  With required name
`"toString"` (a property of `Object.prototype`) and an empty argument
bag, the source finds `"toString" in args` true, validation passes, and
the handler IS invoked — refuting "a call omitting a required name never
invokes the handler and returns success:false". -/
theorem executeFunctionCall_prototype_leak_counterexample :
    c7ProtoDef.parameters.required = some ["toString"] ∧
    "toString" ∉ argKeys ([] : List (String × Json)) ∧
    (executeFunctionCall ⟨"h", []⟩ [c7ProtoDef]).1.success = true ∧
    (executeFunctionCall ⟨"h", []⟩ [c7ProtoDef]).2 = true :=
  ⟨rfl, by simp [argKeys], rfl, rfl⟩

/-- C7 (amended): when the registered definition's parameter schema is an
object with declared properties, a call missing a required argument whose
name is not inherited from `Object.prototype` fails validation
(`success = false`) without the handler ever being invoked; and a call
supplying every required name passes validation and invokes the handler
even when it carries extra arguments not declared in `properties` (they
are only warned about). -/
theorem executeFunctionCall_required_check (call : FunctionCallV)
    (registry : List FunctionDefinition) (d : FunctionDefinition)
    (props : List (String × FunctionParameter)) (req : List String)
    (hget : registryGet registry call.name = some d)
    (hparams : d.parameters = .mk "object" (some props) (some req)) :
    ((∃ f ∈ req, f ∉ argKeys call.arguments ∧ f ∉ objectPrototypeKeys) →
      (executeFunctionCall call registry).1.success = false ∧
      (executeFunctionCall call registry).2 = false) ∧
    ((∀ f ∈ req, f ∈ argKeys call.arguments) →
      (executeFunctionCall call registry).2 = true ∧
      (executeFunctionCall call registry).1 =
        (match d.handler call.arguments with
         | .ok r => ⟨true, some r, none⟩
         | .error e => ⟨false, none, some e⟩)) := by
  constructor
  · rintro ⟨f, hf, hmiss, hproto⟩
    have hfind : (req.find? (fun f => !jsIn f call.arguments)).isSome := by
      rw [List.find?_isSome]
      exact ⟨f, hf, by simp [jsIn, hmiss, hproto]⟩
    obtain ⟨f', hf'⟩ := Option.isSome_iff_exists.mp hfind
    have hval : validateArguments call.arguments d.parameters =
        some ("Missing required parameter: " ++ f') := by
      simp only [validateArguments, hparams, FunctionParameter.type,
        FunctionParameter.properties, FunctionParameter.required,
        Option.getD_some]
      rw [if_neg (by simp), hf']
    simp [executeFunctionCall, hget, hval]
  · intro hall
    have hfind : req.find? (fun f => !jsIn f call.arguments) = none := by
      rw [List.find?_eq_none]
      intro f hf
      simp [jsIn, hall f hf]
    have hval : validateArguments call.arguments d.parameters = none := by
      simp only [validateArguments, hparams, FunctionParameter.type,
        FunctionParameter.properties, FunctionParameter.required,
        Option.getD_some]
      rw [if_neg (by simp), hfind]
    simp only [executeFunctionCall, hget, hval]
    cases d.handler call.arguments <;> simp

def c7Def : FunctionDefinition :=
  ⟨"f", "demo", .mk "object" (some [("a", .mk "string" none none)]) (some ["a"]),
    fun _ => .ok .null⟩

/-- C7 witness: one function `f` requiring `"a"` (not an
`Object.prototype` name), called without arguments: validation fails and
the handler is not invoked. -/
theorem executeFunctionCall_required_check_witness :
    (executeFunctionCall ⟨"f", []⟩ [c7Def]).1.success = false ∧
    (executeFunctionCall ⟨"f", []⟩ [c7Def]).2 = false :=
  (executeFunctionCall_required_check ⟨"f", []⟩ [c7Def] c7Def
    [("a", .mk "string" none none)] ["a"] rfl rfl).1
    ⟨"a", by simp, by simp [argKeys], by decide⟩

/-- C10: when the registered definition's parameter schema has type
`object` but no `properties` record, validation returns no error before
ever reaching the required-name check, so the handler is invoked even
when names listed in `required` are absent from the call's arguments. -/
theorem executeFunctionCall_skips_required_without_properties
    (call : FunctionCallV) (registry : List FunctionDefinition)
    (d : FunctionDefinition) (req : List String)
    (hget : registryGet registry call.name = some d)
    (hparams : d.parameters = .mk "object" none (some req)) :
    validateArguments call.arguments d.parameters = none ∧
    (executeFunctionCall call registry).2 = true ∧
    (executeFunctionCall call registry).1 =
      (match d.handler call.arguments with
       | .ok r => ⟨true, some r, none⟩
       | .error e => ⟨false, none, some e⟩) := by
  have hval : validateArguments call.arguments d.parameters = none := by
    simp only [validateArguments, hparams, FunctionParameter.type,
      FunctionParameter.properties]
    rw [if_neg (by simp)]
  refine ⟨hval, ?_, ?_⟩ <;>
    simp only [executeFunctionCall, hget, hval] <;>
    cases d.handler call.arguments <;> simp

def c10Def : FunctionDefinition :=
  ⟨"g", "demo", .mk "object" none (some ["x"]), fun _ => .ok (.str "ran")⟩

/-- C10 witness: a definition requiring `"x"` but declaring no
`properties`, called with empty arguments: the handler runs anyway. -/
theorem executeFunctionCall_skips_required_without_properties_witness :
    (executeFunctionCall ⟨"g", []⟩ [c10Def]).2 = true ∧
    (executeFunctionCall ⟨"g", []⟩ [c10Def]).1.success = true := by
  have h := executeFunctionCall_skips_required_without_properties
    ⟨"g", []⟩ [c10Def] c10Def ["x"] rfl rfl
  refine ⟨h.2.1, ?_⟩
  rw [h.2.2]
  rfl

theorem promptWithStructureGo_all_fail (validate : Json → Except String Json)
    (fullPrompt : String) (maxRetries : Nat) (responses errs : Nat → String)
    (hfail : ∀ n, attemptOnce validate (responses n) = .error (errs n)) :
    ∀ (remaining idx : Nat) (sent : List String) (lastE : Option String)
      (attempts : Nat),
      (promptWithStructureGo validate fullPrompt maxRetries remaining
          ⟨responses, idx, sent⟩ lastE attempts).result =
        .error ⟨exhaustedMessage maxRetries,
          if remaining = 0 then lastE
          else some (errs (idx + 2 * (remaining - 1)))⟩ ∧
      (promptWithStructureGo validate fullPrompt maxRetries remaining
          ⟨responses, idx, sent⟩ lastE attempts).attempts = attempts + remaining := by
  intro remaining
  induction remaining with
  | zero => intro idx sent lastE attempts; exact ⟨rfl, rfl⟩
  | succ r ih =>
    intro idx sent lastE attempts
    simp only [promptWithStructureGo, CannedSession.promptCall]
    rw [hfail idx]
    cases r with
    | zero =>
      simp [promptWithStructureGo]
    | succ r' =>
      have h := ih (idx + 2)
        ((sent ++ [fullPrompt]) ++ [errorFeedbackPrompt (errs idx)])
        (some (errs idx)) (attempts + 1)
      rw [if_neg (Nat.succ_ne_zero r')] at h
      have harith : idx + 2 + 2 * (r' + 1 - 1) = idx + 2 * (r' + 1 + 1 - 1) := by
        omega
      rw [harith] at h
      simp only [Nat.succ_ne_zero, if_false]
      rw [show idx + 1 + 1 = idx + 2 from rfl]
      refine ⟨h.1, ?_⟩
      rw [h.2]
      omega

/-- C3: for a schema (validator) that no canned response can satisfy,
`promptWithStructure` makes exactly `maxRetries` validation attempts — no
more, no fewer (`maxRetries` counts the first attempt, so `maxRetries = 1`
performs no retry) — and then throws a `StructuredOutputError` carrying
the last underlying parse/validation error (the error of the final
attempt, which consumes prompt-call index `2 * (maxRetries - 1)`). -/
theorem promptWithStructure_exhausts_exactly
    (validate : Json → Except String Json) (fullPrompt : String)
    (responses errs : Nat → String) (maxRetries : Nat)
    (hfail : ∀ n, attemptOnce validate (responses n) = .error (errs n)) :
    (promptWithStructure validate fullPrompt maxRetries
        ⟨responses, 0, []⟩).attempts = maxRetries ∧
    (promptWithStructure validate fullPrompt maxRetries
        ⟨responses, 0, []⟩).result =
      .error ⟨exhaustedMessage maxRetries,
        if maxRetries = 0 then none
        else some (errs (2 * (maxRetries - 1)))⟩ := by
  have h := promptWithStructureGo_all_fail validate fullPrompt maxRetries
    responses errs hfail maxRetries 0 [] none 0
  unfold promptWithStructure
  refine ⟨by rw [h.2]; omega, ?_⟩
  rw [h.1]
  simp

/-- C3 witness: with every canned response being the unparseable text
`"nope"` and `maxRetries = 3`, exactly 3 attempts are made and the thrown
error carries the parse error of the last attempt. -/
theorem promptWithStructure_exhausts_exactly_witness :
    (∀ n : Nat, attemptOnce (fun j => Except.ok j) ((fun _ => "nope") n) =
      .error "Failed to parse JSON response. Response: nope") ∧
    (promptWithStructure (fun j => Except.ok j) "PROMPT" 3
        ⟨fun _ => "nope", 0, []⟩).attempts = 3 ∧
    (promptWithStructure (fun j => Except.ok j) "PROMPT" 3
        ⟨fun _ => "nope", 0, []⟩).result =
      .error ⟨exhaustedMessage 3,
        some "Failed to parse JSON response. Response: nope"⟩ := by
  have h := promptWithStructure_exhausts_exactly (fun j => Except.ok j) "PROMPT"
    (fun _ => "nope") (fun _ => "Failed to parse JSON response. Response: nope")
    3 (fun n => rfl)
  exact ⟨fun n => rfl, h.1, h.2⟩

def c4FullPrompt : String := "SCHEMA-ANNOTATED PROMPT"

/-- The canned model responses of E2E scenario B, indexed by prompt call. -/
def c4Responses : Nat → String
  | 0 => "not json"
  | 1 => "not json again"
  | 2 => "\x7b\"name\":\"Ann\"\x7d"
  | _ + 3 => ""

def c4Outcome : SPOutcome :=
  promptWithStructure (fun j => Except.ok j) c4FullPrompt 3 ⟨c4Responses, 0, []⟩

/-- C4 counterexample: with the canned responses `"not json"`,
`"not json again"`, `'\x7b"name":"Ann"\x7d'` and `maxRetries = 3`, extraction
returns `\x7b name: "Ann" \x7d` but succeeds on attempt 2, not attempt 3: the
error-feedback prompt sent after the failed first attempt consumes the
second canned response. -/
theorem promptWithStructure_scenarioB_not_attempt_three :
    c4Outcome.result = .ok (Json.obj [("name", Json.str "Ann")]) ∧
    c4Outcome.attempts = 2 ∧ ¬ c4Outcome.attempts = 3 :=
  ⟨rfl, rfl, by decide⟩

/-- C4 amended: extraction succeeds on attempt 2 with `\x7b name: "Ann" \x7d`;
the transcript shows the schema-annotated prompt, then the error-feedback
prompt for the first failure (a separate prompt call), then the
schema-annotated prompt again for the successful second attempt. -/
theorem promptWithStructure_scenarioB_amended :
    c4Outcome.result = .ok (Json.obj [("name", Json.str "Ann")]) ∧
    c4Outcome.attempts = 2 ∧
    c4Outcome.session.sent =
      [c4FullPrompt,
        errorFeedbackPrompt "Failed to parse JSON response. Response: not json",
        c4FullPrompt] :=
  ⟨rfl, rfl, rfl⟩

/-- Helper for C1, no cancellation: when `stop()` is never signalled, every
prompt succeeds, and the loop never returns through the stop-condition
branch, the loop starting at `iteration` with `remaining` allowed
iterations runs all of them. -/
theorem runLoop_exhausts_no_signal (cfg : AgentConfig) (env : RunEnv)
    (hsig : env.stopSignal = none)
    (hok : ∀ n, ∃ s, env.prompts n = .ok s) :
    ∀ (remaining iteration : Nat) (steps : List AgentStep) (prompt : String),
      (runLoop cfg env remaining iteration steps prompt).earlyExit = false →
      (runLoop cfg env remaining iteration steps prompt).result.iterations =
          iteration + remaining ∧
      (runLoop cfg env remaining iteration steps prompt).result.status =
          .completed ∧
      (runLoop cfg env remaining iteration steps prompt).result.finalAnswer =
        ((runLoop cfg env remaining iteration steps prompt).result.steps.getLast?).bind
          (fun st => st.thought) := by
  intro remaining
  induction remaining with
  | zero =>
    intro iteration steps prompt _h
    simp [runLoop, loopExit, cancelledAt, hsig]
  | succ r ih =>
    intro iteration steps prompt h
    simp only [runLoop, cancelledAt, hsig] at h ⊢
    obtain ⟨s, hs⟩ := hok iteration
    rw [hs] at h ⊢
    simp only [Bool.false_eq_true, if_false] at h ⊢
    cases hp : parseFunctionCall s with
    | functionCall fcRaw reasoning =>
      simp only [hp] at h ⊢
      have hrec := ih (iteration + 1) _ _ h
      refine ⟨?_, hrec.2.1, hrec.2.2⟩
      rw [hrec.1]; omega
    | regularResponse text =>
      simp only [hp] at h ⊢
      cases hstop : (match cfg.stopCondition with
        | some cond => cond steps
        | none => isTaskComplete text) with
      | true => rw [hstop] at h; simp at h
      | false =>
        rw [hstop] at h
        simp only [Bool.false_eq_true, if_false] at h ⊢
        have hrec := ih (iteration + 1) _ _ h
        refine ⟨?_, hrec.2.1, hrec.2.2⟩
        rw [hrec.1]; omega

/-- Helper for C1, with cancellation: when `stop()` is observed once `k`
iterations have completed, the loop starting at `iteration` exits at
iteration `min (iteration + remaining) (max iteration k)`, with status
`stopped` exactly when the signal lands within the iteration budget. -/
theorem runLoop_exhausts_with_signal (cfg : AgentConfig) (env : RunEnv)
    (k : Nat) (hsig : env.stopSignal = some k)
    (hok : ∀ n, ∃ s, env.prompts n = .ok s) :
    ∀ (remaining iteration : Nat) (steps : List AgentStep) (prompt : String),
      (runLoop cfg env remaining iteration steps prompt).earlyExit = false →
      (runLoop cfg env remaining iteration steps prompt).result.iterations =
          min (iteration + remaining) (max iteration k) ∧
      (runLoop cfg env remaining iteration steps prompt).result.status =
          (if k ≤ iteration + remaining then .stopped else .completed) ∧
      (runLoop cfg env remaining iteration steps prompt).result.finalAnswer =
        ((runLoop cfg env remaining iteration steps prompt).result.steps.getLast?).bind
          (fun st => st.thought) := by
  intro remaining
  induction remaining with
  | zero =>
    intro iteration steps prompt _h
    refine ⟨?_, ?_, rfl⟩
    · show iteration = min (iteration + 0) (max iteration k)
      omega
    · show (if cancelledAt env.stopSignal iteration then TaskStatus.stopped
          else TaskStatus.completed) = _
      rw [hsig]
      by_cases hk : k ≤ iteration
      · rw [if_pos (by simp [cancelledAt, hk]), if_pos (by omega)]
      · rw [if_neg (by simp [cancelledAt, hk]), if_neg (by omega)]
  | succ r ih =>
    intro iteration steps prompt h
    by_cases hk : k ≤ iteration
    · have hcancel : cancelledAt env.stopSignal iteration = true := by
        simp [cancelledAt, hsig, hk]
      simp only [runLoop, hcancel, if_true, loopExit] at h ⊢
      refine ⟨by omega, ?_, trivial⟩
      rw [if_pos (show k ≤ iteration + (r + 1) from by omega)]
    · have hcancel : cancelledAt env.stopSignal iteration = false := by
        simp [cancelledAt, hsig, hk]
      simp only [runLoop, hcancel] at h ⊢
      obtain ⟨s, hs⟩ := hok iteration
      rw [hs] at h ⊢
      simp only [Bool.false_eq_true, if_false] at h ⊢
      cases hp : parseFunctionCall s with
      | functionCall fcRaw reasoning =>
        simp only [hp] at h ⊢
        have hrec := ih (iteration + 1) _ _ h
        rw [show iteration + 1 + r = iteration + (r + 1) from by omega,
          show max (iteration + 1) k = max iteration k from by omega] at hrec
        exact hrec
      | regularResponse text =>
        simp only [hp] at h ⊢
        cases hstop : (match cfg.stopCondition with
          | some cond => cond steps
          | none => isTaskComplete text) with
        | true => rw [hstop] at h; simp at h
        | false =>
          rw [hstop] at h
          simp only [Bool.false_eq_true, if_false] at h ⊢
          have hrec := ih (iteration + 1) _ _ h
          rw [show iteration + 1 + r = iteration + (r + 1) from by omega,
            show max (iteration + 1) k = max iteration k from by omega] at hrec
          exact hrec

/-- C1 (amended): for every `maxIterations = N > 0`, a run whose session
creation and prompting succeed and whose responses never satisfy the stop
condition terminates after at most `N` iterations: exactly `N`, with
`iterations = N` and status `completed`, when `stop()` is never signalled;
and after `min N k` iterations with status `stopped` when `stop()` is
observed once `k` iterations have completed (`completed` when the signal
only lands after the run's own `N` iterations).  In all cases
`finalAnswer` defaults to the last step's `thought`. -/
theorem runAgent_iteration_budget (cfg : AgentConfig) (env : RunEnv)
    (task : String) (hpos : 0 < cfg.maxIterations)
    (hcreate : env.createError = none)
    (hok : ∀ n, ∃ s, env.prompts n = .ok s)
    (hnoearly : (runAgent cfg env task).earlyExit = false) :
    (env.stopSignal = none →
      (runAgent cfg env task).result.iterations = cfg.maxIterations ∧
      (runAgent cfg env task).result.status = .completed) ∧
    (∀ k, env.stopSignal = some k →
      (runAgent cfg env task).result.iterations = min cfg.maxIterations k ∧
      (runAgent cfg env task).result.status =
        (if k ≤ cfg.maxIterations then TaskStatus.stopped
         else TaskStatus.completed)) ∧
    (runAgent cfg env task).result.finalAnswer =
      ((runAgent cfg env task).result.steps.getLast?).bind
        (fun st => st.thought) := by
  have hrw : runAgent cfg env task = runLoop cfg env cfg.maxIterations 0 [] task := by
    unfold runAgent; rw [hcreate]
  rw [hrw] at hnoearly ⊢
  refine ⟨?_, ?_, ?_⟩
  · intro hsig
    have h := runLoop_exhausts_no_signal cfg env hsig hok cfg.maxIterations
      0 [] task hnoearly
    exact ⟨by rw [h.1]; omega, h.2.1⟩
  · intro k hsig
    have h := runLoop_exhausts_with_signal cfg env k hsig hok cfg.maxIterations
      0 [] task hnoearly
    refine ⟨by rw [h.1]; omega, ?_⟩
    rw [h.2.1]
    simp [Nat.zero_add]
  · cases hsig : env.stopSignal with
    | none =>
      exact (runLoop_exhausts_no_signal cfg env hsig hok cfg.maxIterations
        0 [] task hnoearly).2.2
    | some k =>
      exact (runLoop_exhausts_with_signal cfg env k hsig hok cfg.maxIterations
        0 [] task hnoearly).2.2

def c1Cfg : AgentConfig := ⟨2, [], none⟩

/-- Scenario for the counterexample: responses are plain prose matching no
completion indicator, and `stop()` is observed after iteration 1. -/
def c1Env : RunEnv := ⟨none, fun _ => .ok "keep going", some 1⟩

/-- C1 counterexample: with `maxIterations = 2`, responses that never
satisfy the stop condition, and `stop()` observed after the first
iteration, the run terminates after 1 iteration, not 2 — refuting
"terminates after exactly N loop iterations, returns iterations == N"
for cancelled runs. -/
theorem runAgent_early_stop_counterexample :
    (runAgent c1Cfg c1Env "task").result.iterations = 1 ∧
    ¬ (runAgent c1Cfg c1Env "task").result.iterations = 2 ∧
    (runAgent c1Cfg c1Env "task").result.status = .stopped :=
  ⟨rfl, by decide, rfl⟩

def c1EnvNoStop : RunEnv := ⟨none, fun _ => .ok "keep going", none⟩

/-- C1 witness: the amended theorem applied at `maxIterations = 2` with no
cancellation: exactly 2 iterations, status `completed`. -/
theorem runAgent_iteration_budget_witness :
    (runAgent c1Cfg c1EnvNoStop "task").result.iterations = 2 ∧
    (runAgent c1Cfg c1EnvNoStop "task").result.status = .completed := by
  have h := runAgent_iteration_budget c1Cfg c1EnvNoStop "task" (by decide) rfl
    (fun n => ⟨"keep going", rfl⟩) (by decide)
  exact h.1 rfl

/-- Helper for C2: in the reflection loop, once the agent's session is
gone (which `BasicAgent.run`'s `finally` guarantees), `reflect()` never
increments `reflectionCount`; if every inner run fails at session
creation and `stop()` is never signalled, no amount of fuel makes the
loop exit. -/
theorem executeWithReflectionGo_stuck (cfg : AgentConfig) (envs : Nat → RunEnv)
    (reflTexts : Nat → String) (task : String) (maxR : Nat)
    (herr : ∀ n, ∃ e, (envs n).createError = some e)
    (hsig : ∀ n, (envs n).stopSignal = none) :
    ∀ (fuel k : Nat) (st : AgentState) (result : AgentResult),
      st.hasSession = false → st.reflectionCount < maxR →
      st.shouldStop = false → result.status = .failed →
      executeWithReflectionGo cfg envs reflTexts task maxR k fuel st result =
        none := by
  intro fuel
  induction fuel with
  | zero => intro k st result _ _ _ _; rfl
  | succ fuel ih =>
    intro k st result hsess hrc hstop hres
    obtain ⟨e, he⟩ := herr k
    simp only [executeWithReflectionGo]
    rw [if_pos ⟨by rw [hres]; simp, hrc, hstop⟩]
    simp only [reflectStep, hsess]
    rw [if_pos (Or.inl trivial)]
    simp only [runStateful, runAgent, he, hsig k]
    exact ih (k + 1) _ _ rfl hrc rfl rfl

/-- C2 (the code contradicts the claim): when planning is enabled, every
inner run fails at session creation (for example the model is unavailable
or the quota is exhausted), and `stop()` is never called, the
reflect/re-run super-loop of `executeWithReflection` NEVER terminates:
`reflect()` increments `reflectionCount` only while `this.session` is
non-null, but `BasicAgent.run` always destroys and nulls the session
before returning, so the reflection budget never advances.  No amount of
fuel makes the loop exit. -/
theorem executeWithReflection_never_terminates (cfg : AdvancedAgentConfig)
    (envs : Nat → RunEnv) (reflTexts : Nat → String) (task : String)
    (st0 : AgentState)
    (herr : ∀ n, ∃ e, (envs n).createError = some e)
    (hsig : ∀ n, (envs n).stopSignal = none)
    (hrc0 : st0.reflectionCount < maxReflectionsOf cfg.maxReflections) :
    ∀ fuel, executeWithReflection cfg envs reflTexts task fuel st0 = none := by
  intro fuel
  obtain ⟨e0, he0⟩ := herr 0
  unfold executeWithReflection
  simp only [runStateful, runAgent, he0, hsig 0]
  exact executeWithReflectionGo_stuck cfg.base (fun n => envs (n + 1)) reflTexts task
    (maxReflectionsOf cfg.maxReflections)
    (fun n => herr (n + 1)) (fun n => hsig (n + 1))
    fuel 0 _ _ rfl hrc0 rfl rfl

def c2Cfg : AdvancedAgentConfig := ⟨⟨3, [], none⟩, some 2⟩

/-- An environment whose session creation always throws (model
unavailable / quota exhausted): every inner run returns status `failed`
with no steps. -/
def c2Env : RunEnv := ⟨some "Failed to create session", fun _ => .ok "", none⟩

/-- The agent state on entry to `executeWithReflection` during
`runWithPlanning` (planning session active, no steps, counter at 0). -/
def c2State0 : AgentState := ⟨true, [], .running, false, 0⟩

/-- C2 witness: at the concrete failing input (`maxReflections = 2`,
all-failing inner runs), the loop is still running after 1000 rounds. -/
theorem executeWithReflection_never_terminates_witness :
    executeWithReflection c2Cfg (fun _ => c2Env) (fun _ => "reflection")
      "task" 1000 c2State0 = none :=
  executeWithReflection_never_terminates c2Cfg (fun _ => c2Env)
    (fun _ => "reflection") "task" c2State0
    (fun _ => ⟨"Failed to create session", rfl⟩) (fun _ => rfl) (by decide) 1000
